import Mathlib

/-!
# Verification of the ReAgent interactive visualization engine

A shallow embedding of the visualization core of the ReAgent repository:
the d3 zoom transform and its gesture clamping, the concept-hierarchy
click state machine, the label fitter `fitTextToCircle`, the
circle-packing value/sort pipeline (`d3.hierarchy(...).sum(...).sort(...)`
as configured by the repository), the token/paper network builder
`visualizeTokens`, and the partial subtree merge in `loadFullText`.

Machine numbers (pixel coordinates, scales, measured text widths) are
modelled as rationals; JS missing fields are modelled as `Option`.
-/

/-! ## The d3 zoom transform

`d3.zoomIdentity.translate(a,b).scale(k).translate(c,d)` as used by both
`updateKnowledgeGraph` and `updateConceptHierarchy`.  A d3 transform is a
triple `(k, x, y)`; `translate` and `scale` compose as in d3-zoom's
`Transform` class, and applying a transform to a point `p` yields
`k*p + (x, y)`. -/

structure ZTransform where
  k : ℚ
  x : ℚ
  y : ℚ
  deriving DecidableEq, Repr

def zoomIdentity : ZTransform := ⟨1, 0, 0⟩

def ZTransform.translate (t : ZTransform) (a b : ℚ) : ZTransform :=
  ⟨t.k, t.x + t.k * a, t.y + t.k * b⟩

def ZTransform.scale (t : ZTransform) (s : ℚ) : ZTransform :=
  ⟨t.k * s, t.x, t.y⟩

def ZTransform.applyPt (t : ZTransform) (px py : ℚ) : ℚ × ℚ :=
  (t.k * px + t.x, t.k * py + t.y)

/-! ## Pan/zoom gestures and the scale extent

Both visualization variants configure `d3.zoom().scaleExtent([0.1, 4])`
(part_000 lines 263-264 and 393-394).  d3-zoom clamps every
gesture-driven scale change to the configured extent; a drag pan leaves
the scale untouched. -/

structure ScaleExtent where
  lo : ℚ
  hi : ℚ
  deriving DecidableEq

/-- The `scaleExtent([0.1, 4])` of `updateKnowledgeGraph` (part_000:264). -/
def graphScaleExtent : ScaleExtent := ⟨1/10, 4⟩

/-- The `scaleExtent([0.1, 4])` of `updateConceptHierarchy` (part_000:394). -/
def conceptScaleExtent : ScaleExtent := ⟨1/10, 4⟩

/-- A continuous pan/zoom gesture: a wheel step multiplying the scale by a
factor at a pointer position, or a drag pan by a pixel delta. -/
inductive Gesture where
  | wheel (factor px py : ℚ)
  | drag (dx dy : ℚ)

/-- d3-zoom's `scale` constraint: clamp a requested scale to the extent. -/
def clampScale (e : ScaleExtent) (k : ℚ) : ℚ :=
  max e.lo (min e.hi k)

/-- One gesture applied to the current transform, per d3-zoom: a wheel
step rescales about the pointer with the new scale clamped to the
extent; a drag translates without touching the scale. -/
def applyGesture (e : ScaleExtent) (t : ZTransform) : Gesture → ZTransform
  | .wheel f px py =>
      let k' := clampScale e (t.k * f)
      ⟨k', px - k' * ((px - t.x) / t.k), py - k' * ((py - t.y) / t.k)⟩
  | .drag dx dy => ⟨t.k, t.x + dx, t.y + dy⟩

theorem clampScale_bounds (e : ScaleExtent) (h : e.lo ≤ e.hi) (k : ℚ) :
    e.lo ≤ clampScale e k ∧ clampScale e k ≤ e.hi := by
  constructor
  · exact le_max_left _ _
  · exact max_le h (min_le_left _ _)

theorem applyGesture_scale_bounds (e : ScaleExtent) (h : e.lo ≤ e.hi)
    (t : ZTransform) (g : Gesture) (hlo : e.lo ≤ t.k) (hhi : t.k ≤ e.hi) :
    e.lo ≤ (applyGesture e t g).k ∧ (applyGesture e t g).k ≤ e.hi := by
  cases g with
  | wheel f px py => exact clampScale_bounds e h _
  | drag dx dy => exact ⟨hlo, hhi⟩

theorem foldl_applyGesture_scale_bounds (e : ScaleExtent) (h : e.lo ≤ e.hi)
    (gs : List Gesture) (t : ZTransform) (hlo : e.lo ≤ t.k) (hhi : t.k ≤ e.hi) :
    e.lo ≤ (gs.foldl (applyGesture e) t).k ∧ (gs.foldl (applyGesture e) t).k ≤ e.hi := by
  induction gs generalizing t with
  | nil => exact ⟨hlo, hhi⟩
  | cons g gs ih =>
      have hb := applyGesture_scale_bounds e h t g hlo hhi
      exact ih (applyGesture e t g) hb.1 hb.2

/-- C7: under every sequence of wheel/drag gestures, in either
visualization variant, a transform whose scale starts inside `[0.1, 4]`
keeps its scale inside `[0.1, 4]`. -/
theorem zoom_scale_clamped (gs : List Gesture) (t : ZTransform)
    (hlo : (1 : ℚ)/10 ≤ t.k) (hhi : t.k ≤ 4) :
    ((1 : ℚ)/10 ≤ (gs.foldl (applyGesture graphScaleExtent) t).k ∧
      (gs.foldl (applyGesture graphScaleExtent) t).k ≤ 4) ∧
    ((1 : ℚ)/10 ≤ (gs.foldl (applyGesture conceptScaleExtent) t).k ∧
      (gs.foldl (applyGesture conceptScaleExtent) t).k ≤ 4) := by
  constructor
  · exact foldl_applyGesture_scale_bounds graphScaleExtent
      (by norm_num [graphScaleExtent]) gs t hlo hhi
  · exact foldl_applyGesture_scale_bounds conceptScaleExtent
      (by norm_num [conceptScaleExtent]) gs t hlo hhi

/-- Witness for C7 at the initial transform (scale `0.8`) and a concrete
gesture sequence. -/
theorem zoom_scale_clamped_witness :
    ((1 : ℚ)/10 ≤ (4/5 : ℚ) ∧ (4/5 : ℚ) ≤ 4) ∧
    (((1 : ℚ)/10 ≤ (([Gesture.wheel 100 0 0, Gesture.drag 3 4,
        Gesture.wheel (1/1000) 5 5].foldl (applyGesture graphScaleExtent)
        ⟨4/5, 0, 0⟩).k) ∧
      (([Gesture.wheel 100 0 0, Gesture.drag 3 4,
        Gesture.wheel (1/1000) 5 5].foldl (applyGesture graphScaleExtent)
        ⟨4/5, 0, 0⟩).k) ≤ 4) ∧
     ((1 : ℚ)/10 ≤ (([Gesture.wheel 100 0 0, Gesture.drag 3 4,
        Gesture.wheel (1/1000) 5 5].foldl (applyGesture conceptScaleExtent)
        ⟨4/5, 0, 0⟩).k) ∧
      (([Gesture.wheel 100 0 0, Gesture.drag 3 4,
        Gesture.wheel (1/1000) 5 5].foldl (applyGesture conceptScaleExtent)
        ⟨4/5, 0, 0⟩).k) ≤ 4)) :=
  ⟨⟨by norm_num, by norm_num⟩,
    zoom_scale_clamped _ ⟨4/5, 0, 0⟩ (by norm_num) (by norm_num)⟩

/-! ## Concept nodes and the partial subtree merge

The concept-hierarchy documents consumed by `updateConceptHierarchy`
(`{name, value?, summary?, children?}` per part_000 and the merge in
`loadFullText`, part_001 lines 204-219). -/

inductive ConceptNode : Type where
  | mk : String → Option Int → Option String → List ConceptNode → ConceptNode

def ConceptNode.name : ConceptNode → String
  | .mk n _ _ _ => n

def ConceptNode.value : ConceptNode → Option Int
  | .mk _ v _ _ => v

def ConceptNode.summary : ConceptNode → Option String
  | .mk _ _ s _ => s

def ConceptNode.children : ConceptNode → List ConceptNode
  | .mk _ _ _ c => c

/-- The assignment `paperNode.children = newChildren`: the found node with its children
array replaced wholesale, all other fields untouched. -/
def ConceptNode.withChildren : ConceptNode → List ConceptNode → ConceptNode
  | .mk n v s _, c => .mk n v s c

theorem ConceptNode.withChildren_self (c : ConceptNode) :
    c.withChildren c.children = c := by
  cases c
  rfl

/-- The in-place mutation
`currentConceptHierarchy.children.find(child => child.name === paperTitle)`
followed by `paperNode.children = data.hierarchy.children` (part_001
lines 209-213), as a pure function on the children list: the first child
whose `name` equals the title has its children replaced; everything else
is returned as it was. -/
def mergeChildren (title : String) (nc : List ConceptNode) :
    List ConceptNode → List ConceptNode
  | [] => []
  | c :: rest =>
      if c.name = title then c.withChildren nc :: rest
      else c :: mergeChildren title nc rest

/-- The whole merge step of `loadFullText` on the current hierarchy root. -/
def mergeSubtree (root : ConceptNode) (title : String)
    (nc : List ConceptNode) : ConceptNode :=
  root.withChildren (mergeChildren title nc root.children)

theorem mergeChildren_no_match (title : String) (nc : List ConceptNode)
    (l : List ConceptNode) (h : ∀ x ∈ l, x.name ≠ title) :
    mergeChildren title nc l = l := by
  induction l with
  | nil => rfl
  | cons c rest ih =>
      rw [mergeChildren, if_neg (h c (by simp))]
      rw [ih (fun x hx => h x (by simp [hx]))]

theorem mergeChildren_first_match (title : String) (nc : List ConceptNode)
    (pre post : List ConceptNode) (c : ConceptNode)
    (hname : c.name = title) (hpre : ∀ x ∈ pre, x.name ≠ title) :
    mergeChildren title nc (pre ++ c :: post) =
      pre ++ c.withChildren nc :: post := by
  induction pre with
  | nil => simp [mergeChildren, hname]
  | cons p rest ih =>
      rw [List.cons_append, mergeChildren, if_neg (hpre p (by simp))]
      rw [ih (fun x hx => hpre x (by simp [hx]))]
      rfl

/-- C3: when the current root has a depth-1 child named like the loaded
paper's title (and no earlier child shares that name, the
caller-maintained uniqueness invariant), the merge replaces exactly that
child's children array with the fetched subtree's children and leaves
every sibling subtree — and every other field of the root and of the
matched child — byte-identical. -/
theorem mergeSubtree_replaces_exactly_match (root c : ConceptNode)
    (title : String) (nc pre post : List ConceptNode)
    (hsplit : root.children = pre ++ c :: post)
    (hname : c.name = title)
    (hpre : ∀ x ∈ pre, x.name ≠ title) :
    (mergeSubtree root title nc).name = root.name ∧
    (mergeSubtree root title nc).value = root.value ∧
    (mergeSubtree root title nc).summary = root.summary ∧
    (mergeSubtree root title nc).children = pre ++ c.withChildren nc :: post ∧
    (c.withChildren nc).name = c.name ∧
    (c.withChildren nc).value = c.value ∧
    (c.withChildren nc).summary = c.summary ∧
    (c.withChildren nc).children = nc := by
  cases root with
  | mk n v s ch =>
      cases c with
      | mk cn cv cs cc =>
          simp only [ConceptNode.children] at hsplit
          subst hsplit
          refine ⟨rfl, rfl, rfl, ?_, rfl, rfl, rfl, rfl⟩
          simpa [mergeSubtree, ConceptNode.children, ConceptNode.withChildren]
            using mergeChildren_first_match title nc pre post _ hname hpre

/-- A concrete paper entry as built by `handleSearch` (part_000:25-34). -/
def samplePaperA : ConceptNode :=
  .mk "Paper A" (some 5) none [.mk "Abstract" (some 1) none []]

def samplePaperB : ConceptNode :=
  .mk "Paper B" (some 5) none [.mk "Abstract" (some 1) none []]

/-- The search-results hierarchy built by `handleSearch` for two papers. -/
def sampleRoot : ConceptNode :=
  .mk "Search Results" none none [samplePaperA, samplePaperB]

/-- A fetched per-paper concept subtree's children. -/
def sampleNewChildren : List ConceptNode :=
  [.mk "Concept X" none (some "a summary") []]

/-- Witness for C3 on a concrete two-paper hierarchy. -/
theorem mergeSubtree_replaces_exactly_match_witness :
    (sampleRoot.children = [samplePaperA] ++ samplePaperB :: [] ∧
      samplePaperB.name = "Paper B" ∧
      (∀ x ∈ [samplePaperA], x.name ≠ "Paper B")) ∧
    (mergeSubtree sampleRoot "Paper B" sampleNewChildren).children =
      [samplePaperA] ++ samplePaperB.withChildren sampleNewChildren :: [] :=
  ⟨⟨rfl, rfl, by intro x hx; rw [List.mem_singleton] at hx; subst hx; decide⟩,
    (mergeSubtree_replaces_exactly_match sampleRoot samplePaperB "Paper B"
        sampleNewChildren [samplePaperA] [] rfl rfl
        (by intro x hx; rw [List.mem_singleton] at hx; subst hx;
            decide)).2.2.2.1⟩

/-! ## What `loadFullText` renders after a fetch (part_001 lines 204-219)

`if (currentConceptHierarchy) { ...merge...; updateConceptHierarchy(currentConceptHierarchy) }
 else { updateConceptHierarchy(data.hierarchy) }` — the tree handed to
`updateConceptHierarchy` after a per-paper subtree arrives. -/

def loadFullTextRender (current : Option ConceptNode) (paperTitle : String)
    (fetched : ConceptNode) : ConceptNode :=
  match current with
  | some root => mergeSubtree root paperTitle fetched.children
  | none => fetched

theorem mergeSubtree_no_match (root : ConceptNode) (title : String)
    (nc : List ConceptNode) (h : ∀ x ∈ root.children, x.name ≠ title) :
    mergeSubtree root title nc = root := by
  rw [mergeSubtree, mergeChildren_no_match title nc root.children h]
  exact root.withChildren_self

/-- Counterexample for C8: with a hierarchy currently displayed and no
depth-1 child matching the current paper's title, the code re-renders
the *existing* hierarchy — not the newly fetched subtree standalone. -/
theorem loadFullText_no_match_cex :
    loadFullTextRender (some sampleRoot) "Paper C"
        (.mk "fetched root" none none sampleNewChildren) = sampleRoot ∧
    sampleRoot ≠ .mk "fetched root" none none sampleNewChildren := by
  constructor
  · exact mergeSubtree_no_match sampleRoot "Paper C" sampleNewChildren
      (by decide)
  · intro h
    have hn := congrArg ConceptNode.name h
    exact absurd hn (by decide)

/-- C8 (amended): when a concept hierarchy is currently displayed and no
depth-1 child of the current root is named like the current paper's
title, the merge is a no-op and the caller re-renders the existing
hierarchy unchanged; the newly fetched subtree is rendered standalone
only when no hierarchy is currently displayed. -/
theorem loadFullText_no_match_renders_existing
    (root fetched : ConceptNode) (title : String)
    (h : ∀ x ∈ root.children, x.name ≠ title) :
    loadFullTextRender (some root) title fetched = root ∧
    loadFullTextRender none title fetched = fetched :=
  ⟨mergeSubtree_no_match root title fetched.children h, rfl⟩

/-- Witness for C8's amended theorem at a concrete non-matching title. -/
theorem loadFullText_no_match_renders_existing_witness :
    (∀ x ∈ sampleRoot.children, x.name ≠ "Paper C") ∧
    (loadFullTextRender (some sampleRoot) "Paper C"
        (.mk "fetched root" none none sampleNewChildren) = sampleRoot ∧
      loadFullTextRender none "Paper C"
        (.mk "fetched root" none none sampleNewChildren) =
        .mk "fetched root" none none sampleNewChildren) := by
  have h : ∀ x ∈ sampleRoot.children, x.name ≠ "Paper C" := by decide
  exact ⟨h, loadFullText_no_match_renders_existing sampleRoot
    (.mk "fetched root" none none sampleNewChildren) "Paper C" h⟩

/-! ## The concept-hierarchy click state machine (part_000 lines 432-460)

The circle click handler of `updateConceptHierarchy` closes over the
mutable `zoomedNode` (null in Overview, the focused layout node when
drilled in), the viewport size, and the packed root's coordinates.  A
layout node carries the depth and coordinates d3's circle packing
assigned to it. -/

structure LNode where
  id : ℕ
  depth : ℕ
  x : ℚ
  y : ℚ
  r : ℚ
  name : String
  deriving DecidableEq

/-- Viewport size and the packed root's center, the values the handler
closes over. -/
structure HView where
  width : ℚ
  height : ℚ
  rootX : ℚ
  rootY : ℚ
  deriving DecidableEq

/-- The transform `zoomIdentity.translate(width/2, height/2).scale(1.5).translate(-d.x, -d.y)`
(part_000 lines 438-441). -/
def focusTransform (v : HView) (d : LNode) : ZTransform :=
  ((zoomIdentity.translate (v.width/2) (v.height/2)).scale (3/2)).translate
    (-d.x) (-d.y)

/-- The transform `zoomIdentity.translate(width/2, height/2).scale(0.8).translate(-root.x, -root.y)`
(part_000 lines 449-452), also the initial root-fit transform
(part_000 lines 483-486). -/
def overviewTransform (v : HView) : ZTransform :=
  ((zoomIdentity.translate (v.width/2) (v.height/2)).scale (4/5)).translate
    (-v.rootX) (-v.rootY)

/-- What the handler does to the scene's text labels. -/
inductive LabelEffect where
  | keep
  | showTitle (id : ℕ) (title : String)
  | restorePlaceholders
  deriving DecidableEq

structure ClickResult where
  zoomed : Option LNode
  anim : Option (ℚ × ZTransform)
  labels : LabelEffect
  deriving DecidableEq

/-- The click handler: `if (d.depth === 0 && !zoomedNode) { zoom in ... }
else if (zoomedNode) { zoom out ... }` — otherwise nothing happens. -/
def conceptClick (v : HView) (st : Option LNode) (d : LNode) : ClickResult :=
  if d.depth == 0 && st.isNone then
    ⟨some d, some (750, focusTransform v d), .showTitle d.id d.name⟩
  else if st.isSome then
    ⟨none, some (750, overviewTransform v), .restorePlaceholders⟩
  else
    ⟨st, none, .keep⟩

/-- C2: in Overview, a click on a depth-0 node focuses that node with a
750ms animation to scale 1.5 that maps the node's center to the viewport
center; in any Focused state, any click returns to Overview; in
Overview, a click on a non-depth-0 node changes nothing. -/
theorem conceptClick_state_machine (v : HView) (d m : LNode) :
    (d.depth = 0 →
      (conceptClick v none d).zoomed = some d ∧
      (conceptClick v none d).anim = some (750, focusTransform v d) ∧
      (focusTransform v d).k = 3/2 ∧
      (focusTransform v d).applyPt d.x d.y = (v.width/2, v.height/2)) ∧
    (conceptClick v (some m) d).zoomed = none ∧
    (d.depth ≠ 0 → conceptClick v none d = ⟨none, none, .keep⟩) := by
  refine ⟨fun h0 => ?_, ?_, fun hne => ?_⟩
  · rw [conceptClick, if_pos (by simp [h0])]
    refine ⟨rfl, rfl, ?_, ?_⟩
    · simp [focusTransform, zoomIdentity, ZTransform.translate, ZTransform.scale]
    · simp only [focusTransform, zoomIdentity, ZTransform.translate,
        ZTransform.scale, ZTransform.applyPt, Prod.mk.injEq]
      constructor <;> ring
  · rw [conceptClick]
    by_cases h : d.depth = 0
    · rw [if_neg (by simp)]
      rw [if_pos (by simp)]
    · rw [if_neg (by simp [h])]
      rw [if_pos (by simp)]
  · rw [conceptClick, if_neg (by simp [hne]), if_neg (by simp)]

/-- Witness for C2 at a concrete viewport and nodes. -/
theorem conceptClick_state_machine_witness :
    ((⟨0, 0, 100, 80, 50, "Paper Title"⟩ : LNode).depth = 0 →
      (conceptClick ⟨800, 600, 400, 300⟩ none
          ⟨0, 0, 100, 80, 50, "Paper Title"⟩).zoomed =
        some ⟨0, 0, 100, 80, 50, "Paper Title"⟩ ∧
      (conceptClick ⟨800, 600, 400, 300⟩ none
          ⟨0, 0, 100, 80, 50, "Paper Title"⟩).anim =
        some (750, focusTransform ⟨800, 600, 400, 300⟩
          ⟨0, 0, 100, 80, 50, "Paper Title"⟩) ∧
      (focusTransform ⟨800, 600, 400, 300⟩
          ⟨0, 0, 100, 80, 50, "Paper Title"⟩).k = 3/2 ∧
      (focusTransform ⟨800, 600, 400, 300⟩
          ⟨0, 0, 100, 80, 50, "Paper Title"⟩).applyPt 100 80 = (800/2, 600/2)) ∧
    (conceptClick ⟨800, 600, 400, 300⟩
        (some ⟨0, 0, 100, 80, 50, "Paper Title"⟩)
        ⟨1, 1, 10, 10, 5, "Abstract"⟩).zoomed = none ∧
    ((⟨1, 1, 10, 10, 5, "Abstract"⟩ : LNode).depth ≠ 0 →
      conceptClick ⟨800, 600, 400, 300⟩ none ⟨1, 1, 10, 10, 5, "Abstract"⟩ =
        ⟨none, none, .keep⟩) :=
  conceptClick_state_machine ⟨800, 600, 400, 300⟩
    ⟨0, 0, 100, 80, 50, "Paper Title"⟩ ⟨0, 0, 100, 80, 50, "Paper Title"⟩
    |>.imp id (fun _ => ⟨(conceptClick_state_machine ⟨800, 600, 400, 300⟩
      ⟨1, 1, 10, 10, 5, "Abstract"⟩ ⟨0, 0, 100, 80, 50, "Paper Title"⟩).2.1,
      (conceptClick_state_machine ⟨800, 600, 400, 300⟩
        ⟨1, 1, 10, 10, 5, "Abstract"⟩ ⟨0, 0, 100, 80, 50, "Paper Title"⟩).2.2⟩)

/-! ## Labels on the packed circles (part_000 lines 442-470)

The initial render labels the depth-0 circle `'Paper 1'` and every other
circle with the empty string (part_000:465); the zoom-out branch of the
click handler runs `node.each(...)` and writes `'Paper 1'` back into the
text of every node with `depth === 0` (part_000 lines 453-458), leaving
all other labels as they are.  A label state is the list of
`(depth, current text)` pairs of the scene's text elements. -/

def placeholderLabel (d : ℕ) : String :=
  if d = 0 then "Paper 1" else ""

def restoreLabels (ls : List (ℕ × String)) : List (ℕ × String) :=
  ls.map fun p => if p.1 = 0 then (p.1, "Paper 1") else p

mutual

/-- The depths d3's `hierarchy` assigns to a concept tree's descendants:
the root gets depth 0, children of a depth-`d` node get depth `d+1`. -/
def nodeDepths : ConceptNode → ℕ → List ℕ
  | .mk _ _ _ cs, d => d :: forestDepths cs (d + 1)

/-- Depths of a forest whose members all sit at depth `d`. -/
def forestDepths : List ConceptNode → ℕ → List ℕ
  | [], _ => []
  | c :: cs, d => nodeDepths c d ++ forestDepths cs d

end

mutual

theorem nodeDepths_ge : ∀ (t : ConceptNode) (d : ℕ), ∀ x ∈ nodeDepths t d, d ≤ x
  | .mk _ _ _ cs, d => by
      intro x hx
      rw [nodeDepths, List.mem_cons] at hx
      rcases hx with h | h
      · exact h ▸ le_refl d
      · exact Nat.le_of_succ_le (forestDepths_ge cs (d + 1) x h)

theorem forestDepths_ge : ∀ (cs : List ConceptNode) (d : ℕ), ∀ x ∈ forestDepths cs d, d ≤ x
  | [], _ => by intro x hx; cases hx
  | c :: cs, d => by
      intro x hx
      rw [forestDepths, List.mem_append] at hx
      rcases hx with h | h
      · exact nodeDepths_ge c d x h
      · exact forestDepths_ge cs d x h

end

/-- In every packed concept hierarchy there is exactly one depth-0
node: the root d3.hierarchy wraps around the input document. -/
theorem nodeDepths_count_zero (t : ConceptNode) :
    (nodeDepths t 0).count 0 = 1 := by
  cases t with
  | mk n v s cs =>
      rw [nodeDepths, List.count_cons_self]
      have h : (forestDepths cs (0 + 1)).count 0 = 0 := by
        rw [List.count_eq_zero]
        intro hmem
        exact absurd (forestDepths_ge cs (0 + 1) 0 hmem) (by norm_num)
      omega

/-- C9: on every Focused-to-Overview transition the handler animates
(750ms) back to the root-fit transform — scale `0.8` mapping the packed
root's center to the viewport center — and restores every depth-0
node's label to its placeholder text, which (the depth-0 node being
unique, item number 1) is `"Paper 1"`. -/
theorem conceptZoomOut_restores (v : HView) (m d : LNode)
    (ls : List (ℕ × String)) :
    conceptClick v (some m) d =
      ⟨none, some (750, overviewTransform v), .restorePlaceholders⟩ ∧
    (overviewTransform v).k = 4/5 ∧
    (overviewTransform v).applyPt v.rootX v.rootY = (v.width/2, v.height/2) ∧
    (∀ p ∈ restoreLabels ls, p.1 = 0 → p.2 = placeholderLabel p.1) ∧
    placeholderLabel 0 = "Paper " ++ toString 1 ∧
    (∀ t : ConceptNode, (nodeDepths t 0).count 0 = 1) := by
  refine ⟨?_, ?_, ?_, ?_, rfl, nodeDepths_count_zero⟩
  · rw [conceptClick]
    by_cases h : d.depth = 0
    · rw [if_neg (by simp), if_pos (by simp)]
    · rw [if_neg (by simp [h]), if_pos (by simp)]
  · simp [overviewTransform, zoomIdentity, ZTransform.translate, ZTransform.scale]
  · simp only [overviewTransform, zoomIdentity, ZTransform.translate,
      ZTransform.scale, ZTransform.applyPt, Prod.mk.injEq]
    constructor <;> ring
  · intro p hp h0
    rw [restoreLabels, List.mem_map] at hp
    obtain ⟨q, _, hq⟩ := hp
    by_cases hq0 : q.1 = 0
    · rw [if_pos hq0] at hq
      rw [← hq]
      simp [placeholderLabel, hq0]
    · rw [if_neg hq0] at hq
      rw [← hq] at h0
      exact absurd h0 hq0

/-- Witness for C9 at a concrete focused state, click, and label list. -/
theorem conceptZoomOut_restores_witness :
    conceptClick ⟨800, 600, 400, 300⟩
        (some ⟨0, 0, 100, 80, 50, "Paper Title"⟩)
        ⟨1, 1, 10, 10, 5, "Abstract"⟩ =
      ⟨none, some (750, overviewTransform ⟨800, 600, 400, 300⟩),
        .restorePlaceholders⟩ ∧
    (overviewTransform ⟨800, 600, 400, 300⟩).k = 4/5 ∧
    (overviewTransform ⟨800, 600, 400, 300⟩).applyPt 400 300 =
      (800/2, 600/2) ∧
    (∀ p ∈ restoreLabels [(0, "Paper Title"), (1, "")], p.1 = 0 →
      p.2 = placeholderLabel p.1) ∧
    placeholderLabel 0 = "Paper " ++ toString 1 ∧
    (∀ t : ConceptNode, (nodeDepths t 0).count 0 = 1) :=
  conceptZoomOut_restores ⟨800, 600, 400, 300⟩
    ⟨0, 0, 100, 80, 50, "Paper Title"⟩ ⟨1, 1, 10, 10, 5, "Abstract"⟩
    [(0, "Paper Title"), (1, "")]

/-! ## The label fitter `fitTextToCircle` (part_000 lines 333-360)

Text-width measurement (`getBBox().width` on the offscreen svg text
element) is external to the program; the fitter is embedded
parametrically in an arbitrary measurement function
`measure : text → fontSize → width`. -/

structure FitResult where
  displayText : List Char
  fontSize : ℕ
  deriving DecidableEq

/-- The shrink loop: `while (width > maxWidth && fontSize > minFont)
{ fontSize -= 1; ...re-measure... }`, started at the current font size. -/
def shrinkFont (measure : List Char → ℕ → ℚ) (text : List Char)
    (maxW : ℚ) (minFont : ℕ) : ℕ → ℕ
  | 0 => 0
  | n + 1 =>
      if maxW < measure text (n + 1) ∧ minFont < n + 1 then
        shrinkFont measure text maxW minFont n
      else n + 1

/-- The truncation loop: `while (width > maxWidth && chars > 3)
{ chars--; displayText = text.slice(0, chars) + '…'; ...re-measure... }`,
carrying the current character budget, the last measured width and the
current display text. -/
def truncateText (measure : List Char → ℕ → ℚ) (text : List Char)
    (maxW : ℚ) (fontSize : ℕ) : ℕ → ℚ → List Char → List Char
  | 0, _, dt => dt
  | n + 1, w, dt =>
      if maxW < w ∧ 3 < n + 1 then
        truncateText measure text maxW fontSize n
          (measure (text.take n ++ ['…']) fontSize) (text.take n ++ ['…'])
      else dt

/-- The fitter `fitTextToCircle(text, radius, minFont = 8, maxFont = 18)`:
shrink the font from `maxFont` while the measured width exceeds
`radius * 1.7`, then, if still too wide, truncate with an ellipsis. -/
def fitTextToCircle (measure : List Char → ℕ → ℚ) (text : List Char)
    (radius : ℚ) (minFont maxFont : ℕ) : FitResult :=
  let maxW := radius * (17/10)
  let fs := shrinkFont measure text maxW minFont maxFont
  let w := measure text fs
  if maxW < w then
    ⟨truncateText measure text maxW fs text.length w text, fs⟩
  else
    ⟨text, fs⟩

theorem shrinkFont_bounds (measure : List Char → ℕ → ℚ) (text : List Char)
    (maxW : ℚ) (minFont : ℕ) :
    ∀ n, minFont ≤ n →
      minFont ≤ shrinkFont measure text maxW minFont n ∧
        shrinkFont measure text maxW minFont n ≤ n := by
  intro n
  induction n with
  | zero => intro h; exact ⟨h, le_refl 0⟩
  | succ n ih =>
      intro h
      rw [shrinkFont]
      by_cases hc : maxW < measure text (n + 1) ∧ minFont < n + 1
      · rw [if_pos hc]
        have := ih (Nat.lt_succ_iff.mp hc.2)
        exact ⟨this.1, Nat.le_succ_of_le this.2⟩
      · rw [if_neg hc]
        exact ⟨h, le_refl _⟩

theorem truncateText_stops (measure : List Char → ℕ → ℚ) (text : List Char)
    (maxW : ℚ) (fs : ℕ) (n : ℕ) (w : ℚ) (dt : List Char)
    (h : ¬(maxW < w ∧ 3 < n)) :
    truncateText measure text maxW fs n w dt = dt := by
  cases n with
  | zero => rfl
  | succ n => rw [truncateText, if_neg h]

theorem truncateText_ellipsis (measure : List Char → ℕ → ℚ)
    (text : List Char) (maxW : ℚ) (fs : ℕ) :
    ∀ (n : ℕ) (w : ℚ) (dt : List Char), maxW < w → 3 < n →
      ∃ k, 3 ≤ k ∧ k < n ∧
        truncateText measure text maxW fs n w dt = text.take k ++ ['…'] := by
  intro n
  induction n with
  | zero => intro w dt _ h3; omega
  | succ n ih =>
      intro w dt hw h3
      rw [truncateText, if_pos ⟨hw, h3⟩]
      by_cases hc : maxW < measure (text.take n ++ ['…']) fs ∧ 3 < n
      · obtain ⟨k, hk3, hkn, hk⟩ := ih _ _ hc.1 hc.2
        exact ⟨k, hk3, Nat.lt_succ_of_lt hkn, hk⟩
      · refine ⟨n, by omega, Nat.lt_succ_self n, ?_⟩
        exact truncateText_stops measure text maxW fs n _ _ hc

/-- C1 (amended): for every measurement function, the fitter returns a
font size in `[minFont, maxFont]`, and either the full text at a width
that fits within `radius * 1.7`, or a truncation of at least 3 original
characters ending in an ellipsis, or — when the text itself has at most
3 characters — the full text unchanged even though its measured width
still exceeds `radius * 1.7` (the truncation loop requires
`chars > 3`, so such a text is never given an ellipsis). -/
theorem fitTextToCircle_spec (measure : List Char → ℕ → ℚ)
    (text : List Char) (radius : ℚ) (minFont maxFont : ℕ)
    (hfonts : minFont ≤ maxFont) :
    (minFont ≤ (fitTextToCircle measure text radius minFont maxFont).fontSize ∧
      (fitTextToCircle measure text radius minFont maxFont).fontSize ≤ maxFont) ∧
    (((fitTextToCircle measure text radius minFont maxFont).displayText = text ∧
        measure text (fitTextToCircle measure text radius minFont maxFont).fontSize ≤
          radius * (17/10)) ∨
      (∃ k, 3 ≤ k ∧ k < text.length ∧
        (fitTextToCircle measure text radius minFont maxFont).displayText =
          text.take k ++ ['…']) ∨
      (text.length ≤ 3 ∧
        (fitTextToCircle measure text radius minFont maxFont).displayText = text ∧
        radius * (17/10) <
          measure text (fitTextToCircle measure text radius minFont maxFont).fontSize)) := by
  have hb := shrinkFont_bounds measure text (radius * (17/10)) minFont maxFont hfonts
  rw [fitTextToCircle]
  by_cases hw : radius * (17/10) <
      measure text (shrinkFont measure text (radius * (17/10)) minFont maxFont)
  · rw [if_pos hw]
    refine ⟨hb, ?_⟩
    by_cases hlen : 3 < text.length
    · obtain ⟨k, hk3, hkn, hk⟩ := truncateText_ellipsis measure text
        (radius * (17/10)) _ text.length _ text hw hlen
      exact Or.inr (Or.inl ⟨k, hk3, hkn, hk⟩)
    · refine Or.inr (Or.inr ⟨by omega, ?_, hw⟩)
      exact truncateText_stops measure text (radius * (17/10)) _ _ _ _
        (fun hc => hlen hc.2)
  · rw [if_neg hw]
    exact ⟨hb, Or.inl ⟨rfl, le_of_not_lt hw⟩⟩

/-- A concrete proportional measurement model,
`width = 0.6 * fontSize * length` (a typical average glyph width). -/
def cmeasure : List Char → ℕ → ℚ :=
  fun t f => (t.length : ℚ) * (f : ℚ) * (3/5)

/-- Witness for C1's amended theorem at the default fonts `8`/`18`. -/
theorem fitTextToCircle_spec_witness :
    ((8 : ℕ) ≤ 18) ∧
    ((8 ≤ (fitTextToCircle cmeasure ['H', 'i'] 40 8 18).fontSize ∧
      (fitTextToCircle cmeasure ['H', 'i'] 40 8 18).fontSize ≤ 18) ∧
    (((fitTextToCircle cmeasure ['H', 'i'] 40 8 18).displayText = ['H', 'i'] ∧
        cmeasure ['H', 'i']
          (fitTextToCircle cmeasure ['H', 'i'] 40 8 18).fontSize ≤
            40 * (17/10)) ∨
      (∃ k, 3 ≤ k ∧ k < (['H', 'i'] : List Char).length ∧
        (fitTextToCircle cmeasure ['H', 'i'] 40 8 18).displayText =
          (['H', 'i'] : List Char).take k ++ ['…']) ∨
      ((['H', 'i'] : List Char).length ≤ 3 ∧
        (fitTextToCircle cmeasure ['H', 'i'] 40 8 18).displayText = ['H', 'i'] ∧
        40 * (17/10) <
          cmeasure ['H', 'i']
            (fitTextToCircle cmeasure ['H', 'i'] 40 8 18).fontSize))) :=
  ⟨by norm_num, fitTextToCircle_spec cmeasure ['H', 'i'] 40 8 18 (by norm_num)⟩

theorem fitTextToCircle_short_eval :
    fitTextToCircle cmeasure ['a', 'b', 'c'] 1 8 18 = ⟨['a', 'b', 'c'], 8⟩ := by
  norm_num [fitTextToCircle, shrinkFont, truncateText, cmeasure]

/-- Counterexample for C1 as stated: a 3-character text that overflows a
small circle at the minimum font is returned unchanged — its measured
width exceeds `radius * 1.7` and it does not end in an ellipsis, so
neither branch of the claimed disjunction holds. -/
theorem fitTextToCircle_short_text_cex :
    (fitTextToCircle cmeasure ['a', 'b', 'c'] 1 8 18).displayText =
      ['a', 'b', 'c'] ∧
    (fitTextToCircle cmeasure ['a', 'b', 'c'] 1 8 18).fontSize = 8 ∧
    ¬(((fitTextToCircle cmeasure ['a', 'b', 'c'] 1 8 18).displayText =
          ['a', 'b', 'c'] ∧
        cmeasure ['a', 'b', 'c']
          (fitTextToCircle cmeasure ['a', 'b', 'c'] 1 8 18).fontSize ≤
            1 * (17/10)) ∨
      (∃ k, 3 ≤ k ∧
        (fitTextToCircle cmeasure ['a', 'b', 'c'] 1 8 18).displayText =
          (['a', 'b', 'c'] : List Char).take k ++ ['…'])) := by
  refine ⟨by rw [fitTextToCircle_short_eval], by rw [fitTextToCircle_short_eval], ?_⟩
  rw [fitTextToCircle_short_eval]
  intro h
  rcases h with ⟨_, hle⟩ | ⟨k, hk3, hk⟩
  · rw [show (FitResult.mk ['a', 'b', 'c'] 8).fontSize = 8 from rfl] at hle
    norm_num [cmeasure] at hle
  · have hlen := congrArg List.length hk
    simp [List.length_take] at hlen
    omega

/-! ## The circle-packing value/sort pipeline (part_000 lines 275-283, 404-413)

`d3.hierarchy(data).sum(valueFn).sort((a, b) => b.value - a.value)`:
d3's `sum` sets, in post-order, every wrapper node's `value` to
`(+valueFn(node.data) || 0)` plus the combined value of its children;
`sort` then orders every node's children by the comparator.  A layout
wrapper node keeps a pointer `data` to the input datum. -/

inductive HNode : Type where
  | mk : ConceptNode → ℤ → List HNode → HNode

def HNode.data : HNode → ConceptNode
  | .mk d _ _ => d

def HNode.value : HNode → ℤ
  | .mk _ v _ => v

def HNode.children : HNode → List HNode
  | .mk _ _ c => c

/-- The accessor `d => d.value || 1` (part_000:409) composed with d3 `sum`'s own
`+... || 0` coercion: a missing or zero value contributes `1`. -/
def valueFnHier : Option ℤ → ℤ
  | none => 1
  | some x => if x = 0 then 1 else x

/-- The accessor `d => d.value` (part_000:279) under d3 `sum`'s `+... || 0` coercion:
a missing value contributes `0`. -/
def valueFnGraph : Option ℤ → ℤ
  | none => 0
  | some x => x

def sumValues : List HNode → ℤ
  | [] => 0
  | h :: t => h.value + sumValues t

mutual

/-- d3 `hierarchy(...).sum(valueFn)` on a concept tree: wrap each datum,
assigning `value = valueFn(datum.value) + Σ (children values)`. -/
def computeTree (f : Option ℤ → ℤ) : ConceptNode → HNode
  | .mk n v s cs =>
      HNode.mk (.mk n v s cs) (f v + sumValues (computeForest f cs))
        (computeForest f cs)

def computeForest (f : Option ℤ → ℤ) : List ConceptNode → List HNode
  | [] => []
  | c :: cs => computeTree f c :: computeForest f cs

end

mutual

/-- Every node of the wrapped tree satisfies
`value = valueFn(data.value) + Σ (children values)`. -/
def consistent (f : Option ℤ → ℤ) : HNode → Prop
  | .mk d v cs => v = f d.value + sumValues cs ∧ consistentForest f cs

def consistentForest (f : Option ℤ → ℤ) : List HNode → Prop
  | [] => True
  | h :: t => consistent f h ∧ consistentForest f t

end

/-- The comparator `(a, b) => b.value - a.value` (part_000:280, 410):
`a` sorts no later than `b` exactly when `b.value ≤ a.value`
(descending by value). -/
def hrel (a b : HNode) : Prop := b.value ≤ a.value

instance : DecidableRel hrel :=
  fun a b => inferInstanceAs (Decidable (b.value ≤ a.value))

instance : IsTotal HNode hrel := ⟨fun a b => le_total b.value a.value⟩

instance : IsTrans HNode hrel := ⟨fun _ _ _ hab hbc => le_trans hbc hab⟩

mutual

/-- d3 `sort(comparator)`: sort the children of every node. -/
def sortTree : HNode → HNode
  | .mk d v cs => HNode.mk d v (List.insertionSort hrel (sortForest cs))

def sortForest : List HNode → List HNode
  | [] => []
  | c :: cs => sortTree c :: sortForest cs

end

mutual

/-- Every node's children are sorted descending by value. -/
def sortedTree : HNode → Prop
  | .mk _ _ cs => List.Sorted hrel cs ∧ sortedForest cs

def sortedForest : List HNode → Prop
  | [] => True
  | c :: cs => sortedTree c ∧ sortedForest cs

end

/-- The full pre-packing pipeline handed to `d3.pack()`:
`hierarchy(data).sum(f).sort(...)`. -/
def prePack (f : Option ℤ → ℤ) (t : ConceptNode) : HNode :=
  sortTree (computeTree f t)

theorem sumValues_eq_sum_map : ∀ l : List HNode,
    sumValues l = (l.map HNode.value).sum
  | [] => rfl
  | h :: t => by rw [sumValues, sumValues_eq_sum_map t, List.map_cons, List.sum_cons]

theorem sumValues_perm {l l' : List HNode} (h : l.Perm l') :
    sumValues l = sumValues l' := by
  rw [sumValues_eq_sum_map, sumValues_eq_sum_map]
  exact (h.map HNode.value).sum_eq

theorem sortTree_value (h : HNode) : (sortTree h).value = h.value := by
  cases h
  rw [sortTree]
  rfl

theorem sortTree_data (h : HNode) : (sortTree h).data = h.data := by
  cases h
  rw [sortTree]
  rfl

theorem sortForest_eq_map : ∀ cs : List HNode, sortForest cs = cs.map sortTree
  | [] => rfl
  | c :: cs => by rw [sortForest, sortForest_eq_map cs, List.map_cons]

theorem sumValues_sortForest : ∀ cs : List HNode,
    sumValues (sortForest cs) = sumValues cs
  | [] => rfl
  | c :: cs => by
      rw [sortForest, sumValues, sumValues, sortTree_value,
        sumValues_sortForest cs]

theorem consistentForest_iff (f : Option ℤ → ℤ) : ∀ l : List HNode,
    consistentForest f l ↔ ∀ x ∈ l, consistent f x
  | [] => by simp [consistentForest]
  | h :: t => by
      rw [consistentForest, consistentForest_iff f t]
      simp

theorem sortedForest_iff : ∀ l : List HNode,
    sortedForest l ↔ ∀ x ∈ l, sortedTree x
  | [] => by simp [sortedForest]
  | h :: t => by
      rw [sortedForest, sortedForest_iff t]
      simp

theorem consistentForest_of_perm (f : Option ℤ → ℤ) {l l' : List HNode}
    (hp : l.Perm l') (h : consistentForest f l) : consistentForest f l' := by
  rw [consistentForest_iff] at h ⊢
  intro x hx
  exact h x (hp.mem_iff.mpr hx)

theorem sortedForest_of_perm {l l' : List HNode}
    (hp : l.Perm l') (h : sortedForest l) : sortedForest l' := by
  rw [sortedForest_iff] at h ⊢
  intro x hx
  exact h x (hp.mem_iff.mpr hx)

mutual

theorem consistent_computeTree (f : Option ℤ → ℤ) :
    ∀ t : ConceptNode, consistent f (computeTree f t)
  | .mk n v s cs => by
      rw [computeTree, consistent]
      exact ⟨rfl, consistentForest_computeForest f cs⟩

theorem consistentForest_computeForest (f : Option ℤ → ℤ) :
    ∀ cs : List ConceptNode, consistentForest f (computeForest f cs)
  | [] => by rw [computeForest]; exact trivial
  | c :: cs => by
      rw [computeForest, consistentForest]
      exact ⟨consistent_computeTree f c, consistentForest_computeForest f cs⟩

end

mutual

theorem consistent_sortTree (f : Option ℤ → ℤ) :
    ∀ h : HNode, consistent f h → consistent f (sortTree h)
  | .mk d v cs => by
      rw [consistent, sortTree, consistent]
      intro ⟨hv, hf⟩
      constructor
      · rw [sumValues_perm (List.perm_insertionSort hrel (sortForest cs)),
          sumValues_sortForest]
        exact hv
      · exact consistentForest_of_perm f
          (List.perm_insertionSort hrel (sortForest cs)).symm
          (consistentForest_sortForest f cs hf)

theorem consistentForest_sortForest (f : Option ℤ → ℤ) :
    ∀ cs : List HNode, consistentForest f cs → consistentForest f (sortForest cs)
  | [] => fun h => h
  | c :: cs => by
      rw [consistentForest, sortForest, consistentForest]
      intro ⟨hc, hf⟩
      exact ⟨consistent_sortTree f c hc, consistentForest_sortForest f cs hf⟩

end

mutual

theorem sortedTree_sortTree : ∀ h : HNode, sortedTree (sortTree h)
  | .mk d v cs => by
      rw [sortTree, sortedTree]
      constructor
      · exact List.sorted_insertionSort hrel (sortForest cs)
      · exact sortedForest_of_perm
          (List.perm_insertionSort hrel (sortForest cs)).symm
          (sortedForest_sortForest cs)

theorem sortedForest_sortForest : ∀ cs : List HNode, sortedForest (sortForest cs)
  | [] => trivial
  | c :: cs => by
      rw [sortForest, sortedForest]
      exact ⟨sortedTree_sortTree c, sortedForest_sortForest cs⟩

end

theorem computeTree_data (f : Option ℤ → ℤ) (t : ConceptNode) :
    (computeTree f t).data = t := by
  cases t
  rw [computeTree]
  rfl

/-- C4 (amended): in the tree handed to the layout engine, every node's
computed value equals its own contribution — `valueFn` of the datum's
raw value, which defaults a missing/zero value to 1 in the
concept-hierarchy variant and a missing value to 0 in the
knowledge-graph variant — plus the sum of its children's computed
values; recomputing from the (unchanged) `data` pointers is idempotent;
and after the sort step every node's children are sorted descending by
computed value. -/
theorem prePack_consistent_and_sorted (f : Option ℤ → ℤ) (t : ConceptNode) :
    consistent f (computeTree f t) ∧
    consistent f (prePack f t) ∧
    sortedTree (prePack f t) ∧
    computeTree f ((computeTree f t).data) = computeTree f t :=
  ⟨consistent_computeTree f t,
    consistent_sortTree f (computeTree f t) (consistent_computeTree f t),
    sortedTree_sortTree (computeTree f t),
    by rw [computeTree_data]⟩

/-- Counterexample for C4 as stated: in the concept-hierarchy pipeline,
the paper node `{name: "Paper A", value: 5, children: [{name:
"Abstract", value: 1}]}` built by `handleSearch` computes to value
`5 + 1 = 6`, while the sum of its children's computed values is `1` —
a non-leaf node's value is not the sum of its children's values. -/
theorem hierarchy_value_not_children_sum_cex :
    (computeTree valueFnHier samplePaperA).children ≠ [] ∧
    (computeTree valueFnHier samplePaperA).value = 6 ∧
    sumValues (computeTree valueFnHier samplePaperA).children = 1 ∧
    (computeTree valueFnHier samplePaperA).value ≠
      sumValues (computeTree valueFnHier samplePaperA).children := by
  have h : computeTree valueFnHier samplePaperA =
      HNode.mk (.mk "Paper A" (some 5) none [.mk "Abstract" (some 1) none []])
        6 [HNode.mk (.mk "Abstract" (some 1) none []) 1 []] := by
    rw [samplePaperA, computeTree, computeForest, computeTree, computeForest]
    norm_num [valueFnHier, sumValues, HNode.value]
  rw [h]
  refine ⟨?_, rfl, ?_, ?_⟩
  · simp [HNode.children]
  · norm_num [sumValues, HNode.value, HNode.children]
  · norm_num [sumValues, HNode.value, HNode.children]

/-! ## The token/paper network of `visualizeTokens` (part_001)

`const tokens = Object.keys(tokenMap); const papers = new Set(); ...` —
the token map is modelled as an association list in key insertion
order; a JS `Set` keeps first-insertion order and drops duplicates. -/

structure NetNode where
  id : String
  group : String
  deriving DecidableEq

/-- The call `papers.add(paper)`: append if not already present. -/
def insertUnique (acc : List String) (x : String) : List String :=
  if x ∈ acc then acc else acc ++ [x]

/-- The keys `Object.keys(tokenMap)`. -/
def vtTokens (tm : List (String × List String)) : List String :=
  tm.map Prod.fst

/-- The `papers` set: every paper id of every token's list, deduplicated
in first-insertion order. -/
def vtPapers (tm : List (String × List String)) : List String :=
  tm.foldl (fun acc e => e.2.foldl insertUnique acc) []

/-- The `nodes` array: one token node per key, then one paper node per
distinct paper. -/
def vtNodes (tm : List (String × List String)) : List NetNode :=
  (vtTokens tm).map (fun t => ⟨t, "token"⟩) ++
    (vtPapers tm).map (fun p => ⟨p, "paper"⟩)

/-- The `links` array: one `{source: token, target: paper}` push per
membership occurrence, in iteration order, with no deduplication. -/
def vtLinks (tm : List (String × List String)) : List (String × String) :=
  (tm.map (fun e => e.2.map (fun p => (e.1, p)))).flatten

/-- A paper's in-degree: the number of links targeting it. -/
def vtInDegree (tm : List (String × List String)) (p : String) : ℕ :=
  (vtLinks tm).countP (fun l => l.2 == p)

theorem foldl_insertUnique_mem (l : List String) (acc : List String)
    (x : String) : x ∈ l.foldl insertUnique acc ↔ x ∈ acc ∨ x ∈ l := by
  induction l generalizing acc with
  | nil => simp
  | cons a l ih =>
      rw [List.foldl_cons, ih, insertUnique]
      by_cases h : a ∈ acc
      · rw [if_pos h]
        constructor
        · rintro (hx | hx)
          · exact Or.inl hx
          · exact Or.inr (List.mem_cons_of_mem a hx)
        · rintro (hx | hx)
          · exact Or.inl hx
          · rw [List.mem_cons] at hx
            rcases hx with hx | hx
            · exact Or.inl (hx ▸ h)
            · exact Or.inr hx
      · rw [if_neg h]
        simp only [List.mem_append, List.mem_singleton, List.mem_cons]
        tauto

theorem foldl_insertUnique_nodup (l : List String) (acc : List String)
    (h : acc.Nodup) : (l.foldl insertUnique acc).Nodup := by
  induction l generalizing acc with
  | nil => exact h
  | cons a l ih =>
      rw [List.foldl_cons, insertUnique]
      by_cases ha : a ∈ acc
      · rw [if_pos ha]
        exact ih acc h
      · rw [if_neg ha]
        refine ih _ ?_
        rw [List.nodup_append]
        exact ⟨h, List.nodup_singleton a, by simpa using ha⟩

theorem vtPapers_nodup (tm : List (String × List String)) :
    (vtPapers tm).Nodup := by
  rw [vtPapers]
  generalize hacc : ([] : List String) = acc
  have h : acc.Nodup := hacc ▸ List.nodup_nil
  clear hacc
  induction tm generalizing acc with
  | nil => exact h
  | cons e tm ih =>
      rw [List.foldl_cons]
      exact ih _ (foldl_insertUnique_nodup e.2 acc h)

theorem vtPapers_mem_aux (p : String) :
    ∀ (tm : List (String × List String)) (acc : List String),
      p ∈ tm.foldl (fun acc e => e.2.foldl insertUnique acc) acc ↔
        p ∈ acc ∨ ∃ e ∈ tm, p ∈ e.2
  | [], acc => by simp
  | e :: tm, acc => by
      rw [List.foldl_cons, vtPapers_mem_aux p tm, foldl_insertUnique_mem]
      simp only [List.mem_cons]
      constructor
      · rintro ((hp | hp) | ⟨e', he', hp⟩)
        · exact Or.inl hp
        · exact Or.inr ⟨e, Or.inl rfl, hp⟩
        · exact Or.inr ⟨e', Or.inr he', hp⟩
      · rintro (hp | ⟨e', he' | he', hp⟩)
        · exact Or.inl (Or.inl hp)
        · exact Or.inl (Or.inr (he' ▸ hp))
        · exact Or.inr ⟨e', he', hp⟩

theorem vtPapers_mem (tm : List (String × List String)) (p : String) :
    p ∈ vtPapers tm ↔ ∃ e ∈ tm, p ∈ e.2 := by
  rw [vtPapers, vtPapers_mem_aux]
  simp

theorem vtLinks_length (tm : List (String × List String)) :
    (vtLinks tm).length = (tm.map (fun e => e.2.length)).sum := by
  rw [vtLinks]
  induction tm with
  | nil => rfl
  | cons e tm ih =>
      rw [List.map_cons, List.flatten_cons, List.length_append, ih,
        List.map_cons, List.sum_cons, List.length_map]

theorem vtInDegree_eq_count (tm : List (String × List String)) (p : String) :
    vtInDegree tm p = (tm.map (fun e => e.2.count p)).sum := by
  rw [vtInDegree, vtLinks]
  induction tm with
  | nil => rfl
  | cons e tm ih =>
      rw [List.map_cons, List.flatten_cons, List.countP_append, ih,
        List.map_cons, List.sum_cons]
      congr 1
      rw [List.count, List.countP_map]
      rfl

theorem vtNodes_length (tm : List (String × List String)) :
    (vtNodes tm).length = tm.length + (vtPapers tm).length := by
  rw [vtNodes, List.length_append, List.length_map, List.length_map,
    vtTokens, List.length_map]

/-- C5: the graph built by `visualizeTokens` has one node per token key
and one node per distinct paper id (papers deduplicated via a set,
a paper belonging to the set exactly when some token's list mentions
it), one link per (token, paper) membership occurrence with no
duplicate suppression, and a paper's in-degree counts its occurrences
across all token lists; in particular, for
`{ token1: [p1, p2], token2: [p2] }` there are exactly 4 nodes,
exactly 3 links, and `p2` has in-degree 2. -/
theorem visualizeTokens_graph_shape :
    (∀ tm : List (String × List String),
      (vtNodes tm).length = tm.length + (vtPapers tm).length ∧
      (vtPapers tm).Nodup ∧
      (∀ p, p ∈ vtPapers tm ↔ ∃ e ∈ tm, p ∈ e.2) ∧
      (vtLinks tm).length = (tm.map (fun e => e.2.length)).sum ∧
      (∀ p, vtInDegree tm p = (tm.map (fun e => e.2.count p)).sum)) ∧
    vtNodes [("token1", ["p1", "p2"]), ("token2", ["p2"])] =
      [⟨"token1", "token"⟩, ⟨"token2", "token"⟩,
        ⟨"p1", "paper"⟩, ⟨"p2", "paper"⟩] ∧
    (vtNodes [("token1", ["p1", "p2"]), ("token2", ["p2"])]).length = 4 ∧
    (vtLinks [("token1", ["p1", "p2"]), ("token2", ["p2"])]).length = 3 ∧
    vtInDegree [("token1", ["p1", "p2"]), ("token2", ["p2"])] "p2" = 2 := by
  refine ⟨fun tm => ⟨vtNodes_length tm, vtPapers_nodup tm,
    vtPapers_mem tm, vtLinks_length tm, vtInDegree_eq_count tm⟩,
    ?_, ?_, ?_, ?_⟩
  · decide
  · decide
  · decide
  · decide

/-! ## Malformed-input guards of the visualization entry points

`updateKnowledgeGraph` (part_000:242-252) checks
`if (!graphData || !graphData.nodes || !graphData.edges) { console.error(...); return; }`
and `updateConceptHierarchy` (part_000:372-382) checks
`if (!hierarchy) { console.error(...); return; }` — both *before* the
scene-clearing `d3.select('#visualization').selectAll('*').remove()`.
The `#visualization` container is modelled as a canvas that is either
blank or holds the scene of the last successful render; each update
returns the new canvas state together with whether an error was
logged.  The functions are total: the guard path ends in a plain
`return`, never a throw. -/

inductive Canvas (σ : Type) where
  | blank : Canvas σ
  | scene : σ → Canvas σ
  deriving DecidableEq

/-- The argument of `updateKnowledgeGraph`: the `nodes` and `edges`
fields may each be absent. -/
structure GraphData where
  nodes : Option (List String)
  edges : Option (List (String × String))

/-- The entry point `updateKnowledgeGraph(graphData)` on the canvas: abort (logging) on
missing data, `nodes` or `edges`; otherwise clear the canvas and render
the new scene. -/
def updateKnowledgeGraph {σ : Type} (render : GraphData → σ)
    (canvas : Canvas σ) (graphData : Option GraphData) : Canvas σ × Bool :=
  match graphData with
  | none => (canvas, true)
  | some gd =>
      if gd.nodes.isNone || gd.edges.isNone then (canvas, true)
      else (Canvas.scene (render gd), false)

/-- The entry point `updateConceptHierarchy(hierarchy)` on the canvas: abort (logging)
when the hierarchy is absent; otherwise clear and render. -/
def updateConceptHierarchyCanvas {σ : Type} (render : ConceptNode → σ)
    (canvas : Canvas σ) (hierarchy : Option ConceptNode) : Canvas σ × Bool :=
  match hierarchy with
  | none => (canvas, true)
  | some h => (Canvas.scene (render h), false)

/-- C10: rejection of malformed input is atomic — both entry points
return before the scene-clearing step, so the previously rendered
canvas is left completely unchanged, while a valid input does replace
the scene. -/
theorem invalid_input_leaves_scene_unchanged {σ : Type}
    (render : GraphData → σ) (renderH : ConceptNode → σ)
    (canvas : Canvas σ) (g : Option GraphData) (gd : GraphData)
    (h : ConceptNode)
    (hbad : g = none ∨ ∃ gd', g = some gd' ∧
      (gd'.nodes = none ∨ gd'.edges = none)) :
    (updateKnowledgeGraph render canvas g).1 = canvas ∧
    (updateConceptHierarchyCanvas renderH canvas none).1 = canvas ∧
    (gd.nodes ≠ none → gd.edges ≠ none →
      (updateKnowledgeGraph render canvas (some gd)).1 =
        Canvas.scene (render gd)) ∧
    (updateConceptHierarchyCanvas renderH canvas (some h)).1 =
      Canvas.scene (renderH h) := by
  refine ⟨?_, rfl, ?_, rfl⟩
  · rcases hbad with rfl | ⟨gd', rfl, hbad⟩
    · rfl
    · rw [updateKnowledgeGraph]
      rcases hbad with hb | hb
      · rw [if_pos (by rw [hb]; rfl)]
      · rw [if_pos (by rw [hb]; simp)]
  · intro hn he
    rw [updateKnowledgeGraph,
      if_neg (by simp [Option.isNone_iff_eq_none, hn, he])]

/-- Witness for C10 at a concrete prior scene and inputs. -/
theorem invalid_input_leaves_scene_unchanged_witness :
    ((some ⟨none, some []⟩ : Option GraphData) = none ∨
      ∃ gd', (some ⟨none, some []⟩ : Option GraphData) = some gd' ∧
        (gd'.nodes = none ∨ gd'.edges = none)) ∧
    ((updateKnowledgeGraph (fun _ => (0 : ℤ)) (Canvas.scene 7)
        (some ⟨none, some []⟩)).1 = Canvas.scene 7 ∧
      (updateConceptHierarchyCanvas (fun _ => (0 : ℤ)) (Canvas.scene 7)
          none).1 = Canvas.scene 7 ∧
      ((⟨some [], some []⟩ : GraphData).nodes ≠ none →
        (⟨some [], some []⟩ : GraphData).edges ≠ none →
        (updateKnowledgeGraph (fun _ => (0 : ℤ)) (Canvas.scene 7)
            (some ⟨some [], some []⟩)).1 =
          Canvas.scene ((fun _ => (0 : ℤ)) (⟨some [], some []⟩ : GraphData))) ∧
      (updateConceptHierarchyCanvas (fun _ => (0 : ℤ)) (Canvas.scene 7)
          (some sampleRoot)).1 =
        Canvas.scene ((fun _ => (0 : ℤ)) sampleRoot)) :=
  ⟨Or.inr ⟨⟨none, some []⟩, rfl, Or.inl rfl⟩,
    invalid_input_leaves_scene_unchanged (fun _ => (0 : ℤ)) (fun _ => 0)
      (Canvas.scene 7) (some ⟨none, some []⟩) ⟨some [], some []⟩ sampleRoot
      (Or.inr ⟨⟨none, some []⟩, rfl, Or.inl rfl⟩)⟩

/-- Counterexample for C6 as stated: a malformed update on a canvas that
holds a previously rendered scene logs and aborts, but does *not* leave
the canvas blank — the previous scene is still there. -/
theorem invalid_input_canvas_not_blank_cex :
    (updateKnowledgeGraph (fun _ => (0 : ℤ)) (Canvas.scene 7) none).2 = true ∧
    (updateKnowledgeGraph (fun _ => (0 : ℤ)) (Canvas.scene 7) none).1 ≠
      Canvas.blank ∧
    (updateConceptHierarchyCanvas (fun _ => (0 : ℤ)) (Canvas.scene 7)
        none).2 = true ∧
    (updateConceptHierarchyCanvas (fun _ => (0 : ℤ)) (Canvas.scene 7)
        none).1 ≠ Canvas.blank := by
  refine ⟨rfl, ?_, rfl, ?_⟩ <;> (intro h; cases h)

/-- C6 (amended): on every input with required fields missing the entry
points log the problem and abort rendering without touching the canvas
(so it stays blank only if it was already blank) and return normally —
the guard ends in a plain `return`, no exception reaches the caller. -/
theorem invalid_input_logs_and_aborts {σ : Type}
    (render : GraphData → σ) (renderH : ConceptNode → σ)
    (canvas : Canvas σ) (g : Option GraphData)
    (hbad : g = none ∨ ∃ gd', g = some gd' ∧
      (gd'.nodes = none ∨ gd'.edges = none)) :
    (updateKnowledgeGraph render canvas g).2 = true ∧
    (updateKnowledgeGraph render canvas g).1 = canvas ∧
    (updateConceptHierarchyCanvas renderH canvas none).2 = true ∧
    (updateConceptHierarchyCanvas renderH canvas none).1 = canvas := by
  refine ⟨?_, ?_, rfl, rfl⟩
  · rcases hbad with rfl | ⟨gd', rfl, hb⟩
    · rfl
    · rw [updateKnowledgeGraph]
      rcases hb with hb | hb
      · rw [if_pos (by rw [hb]; rfl)]
      · rw [if_pos (by rw [hb]; simp)]
  · rcases hbad with rfl | ⟨gd', rfl, hb⟩
    · rfl
    · rw [updateKnowledgeGraph]
      rcases hb with hb | hb
      · rw [if_pos (by rw [hb]; rfl)]
      · rw [if_pos (by rw [hb]; simp)]

/-- Witness for C6's amended theorem at a concrete prior scene. -/
theorem invalid_input_logs_and_aborts_witness :
    ((none : Option GraphData) = none ∨
      ∃ gd', (none : Option GraphData) = some gd' ∧
        (gd'.nodes = none ∨ gd'.edges = none)) ∧
    ((updateKnowledgeGraph (fun _ => (0 : ℤ)) (Canvas.scene 7) none).2 = true ∧
      (updateKnowledgeGraph (fun _ => (0 : ℤ)) (Canvas.scene 7) none).1 =
        Canvas.scene 7 ∧
      (updateConceptHierarchyCanvas (fun _ => (0 : ℤ)) (Canvas.scene 7)
          none).2 = true ∧
      (updateConceptHierarchyCanvas (fun _ => (0 : ℤ)) (Canvas.scene 7)
          none).1 = Canvas.scene 7) :=
  ⟨Or.inl rfl,
    invalid_input_logs_and_aborts (fun _ => (0 : ℤ)) (fun _ => 0)
      (Canvas.scene 7) none (Or.inl rfl)⟩
